import Mathlib

/-!
Verification of the wx-stubs stub-generation scripts.

This file gives a shallow embedding, in Lean 4, of the parts of
`stub-outliner.py` and `update.py` that the specification's testable
properties talk about, and proves or refutes each property against it.

Conventions of the embedding:
* Python strings are Lean `String`s; character-level operations
  (`strip`, `startswith`, `endswith`, indexing) are carried out on
  `List Char` via `String.toList`.
* Python exceptions are modelled with `Except String`, the error string
  naming the exception class that the Python code would raise.
* The live `wx` namespace is an opaque external input; where the code
  consults it (`getattr(wx, ...)`, `hasattr(wx, ...)`) the embedding
  takes an explicit function parameter describing that namespace.
* Python's stable `list.sort(key=...)` is modelled by
  `List.insertionSort` with the key-lifted relation, which is stable in
  the same way.
-/

/-! ### Small helpers: Python-style string operations -/

/-- Python single-quote character, used to spell diagnostic strings. -/
def pyQuote : String := (Char.ofNat 39).toString

/-- `s.startswith(p)` on explicit character lists. -/
def startsWithL (s p : List Char) : Bool := p.isPrefixOf s

/-- `s.endswith(p)` on explicit character lists. -/
def endsWithL (s p : List Char) : Bool := p.isSuffixOf s

/-- `s.strip("*")`: remove leading and trailing `'*'` characters. -/
def stripStars (s : List Char) : List Char :=
  ((s.dropWhile (· == '*')).reverse.dropWhile (· == '*')).reverse

/-- `s.startswith(p)` for `String`s (via the character lists). -/
def pyStartsWith (s p : String) : Bool := startsWithL s.toList p.toList

/-- Python `str.partition(sep)` restricted to a single character,
returning the part before the first separator and the part after it
(empty when the separator does not occur, matching how the caller
only tests truthiness of the tail). -/
def splitFirstChar (c : Char) : List Char → (List Char × List Char)
  | [] => ([], [])
  | d :: rest =>
      if d == c then ([], rest)
      else
        let (pre, post) := splitFirstChar c rest
        (d :: pre, post)

/-- Python `str.isidentifier()` (ASCII fragment, which is all the
grammar can produce). -/
def isPyIdentifier (s : List Char) : Bool :=
  match s with
  | [] => false
  | c :: rest => (c.isAlpha || c == '_') && rest.all (fun d => d.isAlphanum || d == '_')

/-- `s.removeprefix("wx.")`. -/
def removeWxDot (s : List Char) : List Char :=
  if ['w', 'x', '.'].isPrefixOf s then s.drop 3 else s

/-- Python `name.replace("Get", "Set")`: replace every non-overlapping
occurrence, scanning left to right. -/
def replaceGetSet : List Char → List Char
  | 'G' :: 'e' :: 't' :: rest => 'S' :: 'e' :: 't' :: replaceGetSet rest
  | c :: rest => c :: replaceGetSet rest
  | [] => []

/-- `String` version of `replaceGetSet`. -/
def replaceGetSetS (s : String) : String := (replaceGetSet s.toList).asString

/-! ### Association-list helpers (Python `dict` with string keys) -/

/-- First-match lookup in an association list. -/
def lookupA {β : Type} (k : String) : List (String × β) → Option β
  | [] => none
  | (k', v) :: rest => if k' = k then some v else lookupA k rest

/-- Remove every binding of key `k` (a `dict` holds at most one). -/
def eraseA {β : Type} (k : String) (l : List (String × β)) : List (String × β) :=
  l.filter (fun p => p.1 ≠ k)

/-- `d[k] = v` for a `dict` modelled as an association list. -/
def insertA {β : Type} (k : String) (v : β) (l : List (String × β)) : List (String × β) :=
  (k, v) :: eraseA k l

theorem lookupA_eraseA_self {β : Type} (k : String) (l : List (String × β)) :
    lookupA k (eraseA k l) = none := by
  induction l with
  | nil => rfl
  | cons p rest ih =>
      by_cases h : p.1 = k
      · simpa [eraseA, h] using ih
      · simpa [eraseA, lookupA, h] using ih

theorem lookupA_eraseA_ne {β : Type} {k k' : String} (h : k' ≠ k) (l : List (String × β)) :
    lookupA k (eraseA k' l) = lookupA k l := by
  induction l with
  | nil => rfl
  | cons p rest ih =>
      by_cases hp : p.1 = k'
      · have hk : p.1 ≠ k := by simpa [hp] using h
        have : eraseA k' (p :: rest) = eraseA k' rest := by
          simp [eraseA, List.filter_cons, hp]
        rw [this, ih, lookupA, if_neg hk]
      · have : eraseA k' (p :: rest) = p :: eraseA k' rest := by
          simp [eraseA, List.filter_cons, hp]
        rw [this, lookupA, lookupA, ih]

theorem lookupA_insertA_ne {β : Type} {k k' : String} (h : k' ≠ k) (v : β)
    (l : List (String × β)) : lookupA k (insertA k' v l) = lookupA k l := by
  simp [insertA, lookupA, h, lookupA_eraseA_ne h]

/-! ### `stub-outliner.py` — Type heuristics (lines 38-133)

`type_to_arg`, `patern_and_type`, `match`, `convert_arg_type`,
`get_type_from_default`, `ret_trans_table`, `modify_ret`. -/

/-- The `type_to_arg` table from `stub-outliner.py`, in dict insertion
order. -/
def type_to_arg : List (String × List String) :=
  [("int", ["x*", "y*", "h*", "width", "height"]),
   ("wx._WindowID", ["windid", "winid"]),
   ("PointLike", ["pt*", "point"]),
   ("SizeLike", ["dim", "sz", "size"]),
   ("RectLike", ["rect"]),
   ("wx.Bitmap", ["bitmap*", "bmp*", "*Bitmap"]),
   ("wx.Window", ["window"]),
   ("wx._EventType", ["*eventType", "evtType"]),
   ("wx.DC", ["dc"]),
   ("String", ["label", "text", "str", "string"]),
   ("Any", ["clientData"]),
   ("wx.Icon", ["icon"]),
   ("wx.Colour", ["*Colour", "colour"]),
   ("wx.Font", ["font"]),
   ("wx.ImageList", ["imageList"])]

/-- `[(p, t) for t, v in type_to_arg.items() for p in v]`. -/
def raw_patern_and_type : List (String × String) :=
  type_to_arg.flatMap (fun tv => tv.2.map (fun p => (p, tv.1)))

/-- Python `len` applied to one element of `patern_and_type`: the
element is the 2-tuple `(p, t)`, so `len` returns 2 for every element. -/
def pyLenOfPair (_ : String × String) : Nat := 2

/-- `patern_and_type.sort(key=len, reverse=True)`: a stable sort, in
descending key order, by `len` of each `(p, t)` tuple. -/
def patern_and_type : List (String × String) :=
  raw_patern_and_type.insertionSort (fun a b => pyLenOfPair b ≤ pyLenOfPair a)

/-- The first disjunct of `match` (line 64-65): `string == stem`. -/
def match_exact (string patern : List Char) : Bool :=
  string == stripStars patern

/-- The second disjunct of `match` (lines 67-68):
`patern.startswith("*") and string.endswith(stem)`. -/
def match_sufx (string patern : List Char) : Bool :=
  startsWithL patern ['*'] && endsWithL string (stripStars patern)

/-- The third disjunct of `match` (lines 70-72):
`patern.endswith("*") and string.startswith(stem) and
string[len(stem)].isupper()`.  The two `and`s short-circuit, so the
index is only evaluated when both prior conjuncts hold; an
out-of-range index raises `IndexError`, modelled as `.error`. -/
def match_wildcard (string patern : List Char) : Except String Bool :=
  let stem := stripStars patern
  if endsWithL patern ['*'] && startsWithL string stem then
    match string.get? stem.length with
    | some c => .ok c.isUpper
    | none => .error "IndexError"
  else .ok false

/-- `match(string, patern)` from `stub-outliner.py` lines 62-73.  The
Python `or` chain short-circuits, so the wildcard disjunct (the only
one that can raise) is reached only when the first two are false. -/
def matchPy (string patern : List Char) : Except String Bool :=
  if match_exact string patern then .ok true
  else if match_sufx string patern then .ok true
  else match_wildcard string patern

/-- The `convert_arg_type` table (lines 76-84). -/
def convert_arg_type : List (String × String) :=
  [("str", "String"), ("bytes", "String"), ("list", "Sequence[]"),
   ("StandardID", "wx._WindowID"), ("Point", "PointLike"),
   ("Size", "SizeLike"), ("Rect", "RectLike")]

/-- The type of `ast.literal_eval` applied to a default token of the
signature grammar (an identifier was already sent to the `wx` lookup;
remaining tokens are numbers, the `[]` / `()` placeholders, or
arbitrary quoted text on which `literal_eval` raises and the
surrounding `try` yields `None`).  Returns the Python type name of
the literal's value. -/
def literal_eval_type (s : List Char) : Option String :=
  if s == ['[', ']'] then some "list"
  else if s == ['(', ')'] then some "tuple"
  else
    let t := match s with
      | '-' :: r => r
      | '+' :: r => r
      | _ => s
    if !t.isEmpty && t.all Char.isDigit then some "int"
    else if !t.isEmpty && t.all (fun c => c.isDigit || c == '.')
            && (t.count '.') == 1 && t.any Char.isDigit then some "float"
    else none

/-- `get_type_from_default` (lines 86-105).  `wxNS name` describes
`getattr(wx, name, None)`: `none` when the attribute is missing or is
`None`, otherwise the pair `(type(x).__name__, type(x).__module__)` of
the attribute's value. -/
def get_type_from_default (wxNS : String → Option (String × String)) (s : String) :
    Option String :=
  let x : Option (String × String) :=
    if s = "True" || s = "False" then some ("bool", "builtins")
    else if isPyIdentifier s.toList then wxNS s
    else (literal_eval_type s.toList).map (fun n => (n, "builtins"))
  match x with
  | none => none
  | some (n, m) =>
      match lookupA n convert_arg_type with
      | some t => some t
      | none => if pyStartsWith m "wx" then some ("wx." ++ n) else some n

/-- The `ret_trans_table` (lines 107-126). -/
def ret_trans_table : List (String × String) :=
  [("PyUserData", "Any"), ("ClientData", "Any"), ("PyObject", "?"),
   ("String", "str"), ("double", "float"), ("long", "int"),
   ("LongLong", "int"), ("unsignedchar", "int"), ("unsignedint", "int"),
   ("Uint32", "int"), ("UIntPtr", "int"), ("Coord", "int"),
   ("size_t", "int"), ("IntPtr", "int"), ("Uint16", "int"),
   ("unsignedlong", "int"), ("ArrayString", "list[str]"),
   ("ArrayInt", "list[int]")]

/-- `modify_ret` (lines 128-133); `wxHas name` is `hasattr(wx, name)`. -/
def modify_ret (wxHas : String → Bool) (ret : String) : String :=
  match lookupA ret ret_trans_table with
  | some t => t
  | none => if wxHas ret then "wx." ++ ret else ret

/-! ### `stub-outliner.py` — Signatures (lines 139-239) -/

/-- The `Arg` dataclass (lines 139-143); the `deafult` spelling is the
source's. -/
structure Arg where
  name : String
  tp : Option String
  deafult : Bool
deriving DecidableEq, Repr

/-- The pattern loop of `parse_args` (lines 153-156): try each pair of
`patern_and_type` in order, stopping at the first match.  Note the
source calls `match(a, name)`, placing the pattern `a` in `match`'s
`string` parameter and the argument name in its `patern` parameter. -/
def patternLoop (name : String) : List (String × String) → Except String (Option String)
  | [] => .ok none
  | (a, t) :: rest =>
      match matchPy a.toList name.toList with
      | .error e => .error e
      | .ok true => .ok (some t)
      | .ok false => patternLoop name rest

/-- A `for` loop that builds a list, propagating the first raised
exception (the effect of Python iteration under our `Except` model). -/
def exceptMap {α β : Type} (f : α → Except String β) : List α → Except String (List β)
  | [] => .ok []
  | a :: rest => do
      let b ← f a
      let bs ← exceptMap f rest
      pure (b :: bs)

/-- `parse_args` (lines 145-160). -/
def parse_args (wxNS : String → Option (String × String)) (args : List String)
    (add_any : Bool) : Except String (List Arg) :=
  exceptMap (fun arg => do
    let (nameL, defaultL) := splitFirstChar '=' arg.toList
    let name := nameL.asString
    let default := defaultL.asString
    let tp ← if default ≠ "" then pure (get_type_from_default wxNS default)
             else patternLoop name patern_and_type
    let tp := if tp = none && add_any then some "Any" else tp
    pure (Arg.mk name tp (default ≠ ""))) args

/-- The output of the documentation grammar for one signature match:
`parsed["name"]`, `parsed["args"]` (each token already combined to
`name` or `name=literal`), and `parsed["return"][0]`. -/
structure Parsed where
  name : String
  args : List String
  ret : String
deriving DecidableEq, Repr

/-- A parsed `Signature` (class `Signature`, lines 165-174): `init`
forces `meth`; a method gets an implicit untyped `self` first
argument; the return annotation is normalized by `modify_ret`. -/
structure Signature where
  name : String
  args : List Arg
  retanot : String
deriving DecidableEq, Repr

/-- `Signature.__init__` (lines 166-174). -/
def mkSignature (wxNS : String → Option (String × String)) (wxHas : String → Bool)
    (parsed : Parsed) (init meth add_any : Bool) : Except String Signature := do
  let meth := if init then true else meth
  let parsedArgs ← parse_args wxNS parsed.args add_any
  pure { name := if init then "__init__" else parsed.name
         args := (if meth then [Arg.mk "self" none false] else []) ++ parsedArgs
         retanot := modify_ret wxHas parsed.ret }

/-- `Signature.set_type` (lines 190-191) on the argument list. -/
def set_type (args : List Arg) (i : Nat) (tp : String) : List Arg :=
  match args, i with
  | [], _ => []
  | a :: rest, 0 => { a with tp := some tp } :: rest
  | a :: rest, n + 1 => a :: set_type rest n tp

/-- `Signature.print` (lines 193-207): per argument the tokens
`name`, `": " tp` (when typed), `" = ..."` (when defaulted) and a
`", "` separator are appended, and the final trailing separator is
popped before joining. -/
def printSig (sig : Signature) (indent : String) : String :=
  let pieces := sig.args.flatMap (fun a =>
    [a.name] ++ (match a.tp with | some t => [": ", t] | none => [])
      ++ (if a.deafult then [" = ..."] else []) ++ [", "])
  let pieces := pieces.dropLast
  indent ++ "def " ++ sig.name ++ "(" ++ String.join pieces ++ ") -> "
    ++ sig.retanot ++ ": ..."

/-! ### `stub-outliner.py` — `make_stub` constructor handling (lines 310-346)

The class's capability flags `issubclass(cls, wx.Window)`,
`issubclass(cls, wx.TopLevelWindow)` and `issubclass(cls, wx.Event)`
are reflected facts about the live class and enter as booleans. -/

/-- Python `sub in s` substring containment. -/
def containsSub (sub : List Char) : List Char → Bool
  | [] => sub.isEmpty
  | c :: rest => sub.isPrefixOf (c :: rest) || containsSub sub rest

/-- One step of the `wx.Event` argument fix-up (lines 332-336) at
index `i`. -/
def event_fix (args : List Arg) (i : Nat) : List Arg :=
  match args.get? i with
  | some a =>
      if containsSub "Type".toList a.name.toList then set_type args i "wx._EventType"
      else if a.name = "id" || a.name = "winid" || a.name = "windid" then
        set_type args i "wx._WindowID"
      else args
  | none => args

/-- The special `__init__` heuristics applied to one parsed signature
(lines 320-336).  In the window branch the code reads `sig.args[2]`
unconditionally after typing `parent`; when the signature has exactly
`[self, parent]` this raises `IndexError`. -/
def init_overrides (isWindow isTopLevel isEvent : Bool) (sig : Signature) :
    Except String Signature :=
  if sig.args.length < 2 then .ok sig
  else if isWindow && ((sig.args.get? 1).map Arg.name == some "parent") then
    let args1 := set_type sig.args 1
      (if isTopLevel then "Optional[wx.Window]" else "wx.Window")
    match args1.get? 2 with
    | none => .error "IndexError"
    | some a2 =>
        .ok { sig with args := if a2.name = "id" then set_type args1 2 "wx._WindowID" else args1 }
  else if isEvent then
    .ok { sig with args := ((List.range (min 3 sig.args.length)).drop 1).foldl event_fix sig.args }
  else .ok sig

/-- Constructor processing of `make_stub` for the signatures found in
the class docstring (lines 312-336): all `Signature` objects are built
first (by `find_signatures`, `init=True`), then the hierarchy-aware
overrides run over them. -/
def process_init (wxNS : String → Option (String × String)) (wxHas : String → Bool)
    (isWindow isTopLevel isEvent add_any : Bool) (parseds : List Parsed) :
    Except String (List Signature) := do
  let sigs ← exceptMap (fun p => mkSignature wxNS wxHas p true true add_any) parseds
  exceptMap (init_overrides isWindow isTopLevel isEvent) sigs

/-! ### `stub-outliner.py` — `make_stub` method loop (lines 348-370) -/

/-- What the method loop emits for one method name. -/
inductive MethodOut where
  /-- zero parsed signatures: `inspect.signature` fallback with `Any`
  return (line 354-355). -/
  | fallback (name : String)
  /-- exactly one parsed signature (line 356-366), possibly after
  getter/setter type propagation. -/
  | single (sig : Signature)
  /-- an overload group (lines 367-370). -/
  | overloads (sigs : List Signature)
deriving DecidableEq, Repr

/-- The recorded setter type for a getter (line 360):
`convert_arg_type.get(sig.retanot.removeprefix("wx."), sig.retanot)`. -/
def getterRecordedType (retanot : String) : String :=
  match lookupA (removeWxDot retanot.toList).asString convert_arg_type with
  | some t => t
  | none => retanot

/-- Does the second argument start out uninferred
(`sig.args[1].tp in (None, "Any")`, line 364)? -/
def sndArgUninferred (sig : Signature) : Bool :=
  match sig.args.get? 1 with
  | some a => a.tp == none || a.tp == some "Any"
  | none => false

/-- One iteration of the method loop (lines 350-370) for the method
`name` with its parsed signatures, threading the `setters` dict.
`setters.pop(name)` raises `KeyError` when `name` is absent. -/
def methodStep (name : String) (sigs : List Signature)
    (setters : List (String × String)) :
    Except String (MethodOut × List (String × String)) :=
  match sigs with
  | [] => .ok (.fallback name, setters)
  | [sig] =>
      if pyStartsWith sig.name "Get" then
        .ok (.single sig,
             insertA (replaceGetSetS sig.name) (getterRecordedType sig.retanot) setters)
      else if (lookupA sig.name setters).isSome && sig.args.length == 2
              && sndArgUninferred sig then
        match lookupA name setters with
        | some t => .ok (.single { sig with args := set_type sig.args 1 t }, eraseA name setters)
        | none => .error "KeyError"
      else .ok (.single sig, setters)
  | sigs => .ok (.overloads sigs, setters)

/-- The whole method loop over the (already name-sorted) method list,
each method paired with its parsed signatures. -/
def method_pass (entries : List (String × List Signature))
    (setters : List (String × String)) : Except String (List MethodOut) :=
  match entries with
  | [] => .ok []
  | (name, sigs) :: rest => do
      let (out, setters') ← methodStep name sigs setters
      let outs ← method_pass rest setters'
      pure (out :: outs)

/-! ### `update.py` — imports and override-module scan (lines 13-171) -/

/-- The `Import` class (lines 13-19). -/
structure Import where
  name : String
  mod : String
deriving DecidableEq, Repr

/-- The `ImportGroup` class (lines 21-28). -/
structure ImportGroup where
  mod : String
  imports : List Import
deriving DecidableEq, Repr

/-- `ImportGroup.__init__` (lines 22-28): `assert imports` rejects an
empty sequence; all members must name the same source sub-module as
the first, else `ValueError` is raised; otherwise the shared module is
stored. -/
def ImportGroup.init (imports : List Import) : Except String ImportGroup :=
  match imports with
  | [] => .error "AssertionError: empty import"
  | i0 :: _ =>
      if imports.all (fun imp => imp.mod == i0.mod) then .ok ⟨i0.mod, imports⟩
      else .error ("ValueError: Modules don" ++ pyQuote ++ "t match")

/-- A method signature inside an override-file class body as
`check_has_anotations` sees it: the function name, the positional
arguments as `(name, has-annotation)` pairs, and the decorator names. -/
structure OvrFuncSig where
  name : String
  args : List (String × Bool)
  decorators : List String
deriving DecidableEq, Repr

/-- `check_has_anotations` (lines 108-127) for one `FunctionDef`,
returning the diagnostic lines it prints. -/
def check_one_method (modname clsName : String) (f : OvrFuncSig) : List String :=
  let missing := (f.args.filter (fun a => !a.2 && a.1 ≠ "self")).map Prod.fst
  let selfDiag :=
    if f.decorators.contains "staticmethod" then
      match f.args with
      | (a0, _) :: _ =>
          if a0 = "self" then
            ["Error: " ++ pyQuote ++ "self" ++ pyQuote
              ++ " argument to staticmethod at " ++ modname ++ "." ++ clsName ++ "." ++ f.name]
          else []
      | [] => []
    else
      match f.args with
      | (a0, _) :: _ =>
          if a0 ≠ "self" then
            ["Error: missing " ++ pyQuote ++ "self" ++ pyQuote
              ++ " argument to method at " ++ modname ++ "." ++ clsName ++ "." ++ f.name]
          else []
      | [] =>
          ["Error: missing " ++ pyQuote ++ "self" ++ pyQuote
            ++ " argument to method at " ++ modname ++ "." ++ clsName ++ "." ++ f.name]
  let missingDiag :=
    if missing.isEmpty then []
    else ["Error: method " ++ modname ++ "." ++ clsName ++ "." ++ f.name
           ++ " is missing anotation for arguments: " ++ String.intercalate ", " missing]
  selfDiag ++ missingDiag

/-- `check_has_anotations` over a class body. -/
def check_has_anotations (modname clsName : String) (body : List OvrFuncSig) : List String :=
  body.flatMap (check_one_method modname clsName)

/-- A top-level node of an override stub file, as the `ast` walk of
lines 137-167 distinguishes them. -/
inductive OvrNode where
  | classDef (name : String) (body : List OvrFuncSig)
  | funcDef (name : String) (decorators : List String)
  | annAssign (name : String)
deriving DecidableEq, Repr

/-- The mutable state of the override-module scan. -/
structure ScanState where
  mod_dict : List String
  classes_stubed : List String
  def_import : List ImportGroup
  diagnostics : List String
deriving DecidableEq, Repr

/-- Does the bound name start with an underscore (the
`name[0] != "_"` filters)? -/
def underscored (name : String) : Bool :=
  name.toList.head? == some '_'

/-- One node of the per-module loop body (lines 137-167).  Besides the
state it threads the module's import list `i` and the `last_overload`
marker.  The only raise in this loop is the
`assert node.decorator_list[0].id == "overload"` for a decorated
function (line 153). -/
def processNode (stem : String) (acc : ScanState × List Import × String) (node : OvrNode) :
    Except String (ScanState × List Import × String) := do
  let (st, i, last_overload) := acc
  match node with
  | .classDef name body =>
      if underscored name then pure acc
      else
        let st := { st with diagnostics := st.diagnostics ++ check_has_anotations stem name body }
        let i := i ++ [Import.mk name ("wx." ++ stem)]
        if st.mod_dict.contains name then
          pure ({ st with mod_dict := st.mod_dict.erase name,
                          classes_stubed := st.classes_stubed ++ [name] }, i, last_overload)
        else if st.classes_stubed.contains name then
          pure ({ st with diagnostics := st.diagnostics
                    ++ ["Error: duplicate class definition - " ++ name] }, i, last_overload)
        else
          pure ({ st with diagnostics := st.diagnostics
                    ++ ["Error: class " ++ stem ++ "." ++ name
                         ++ " does not corespond to an object in the wx namespace\n"] },
                i, last_overload)
  | .funcDef name decorators =>
      if underscored name then pure acc
      else do
        let last_overload ←
          match decorators with
          | [] => pure last_overload
          | d0 :: _ =>
              if d0 ≠ "overload" then throw "AssertionError"
              else pure last_overload
        match decorators with
        | _ :: _ =>
            if last_overload = name then pure (st, i, last_overload)
            else
              let i := i ++ [Import.mk name ("wx." ++ stem)]
              if st.mod_dict.contains name then
                pure ({ st with mod_dict := st.mod_dict.erase name }, i, name)
              else
                pure ({ st with diagnostics := st.diagnostics
                         ++ ["Error: function " ++ stem ++ "." ++ name
                              ++ " does not corespond to an object in the wx namespace\n"] },
                      i, name)
        | [] =>
            let i := i ++ [Import.mk name ("wx." ++ stem)]
            if st.mod_dict.contains name then
              pure ({ st with mod_dict := st.mod_dict.erase name }, i, last_overload)
            else
              pure ({ st with diagnostics := st.diagnostics
                       ++ ["Error: function " ++ stem ++ "." ++ name
                            ++ " does not corespond to an object in the wx namespace\n"] },
                    i, last_overload)
  | .annAssign name =>
      if underscored name then pure acc
      else
        pure ({ st with mod_dict := st.mod_dict.erase name },
              i ++ [Import.mk name ("wx." ++ stem)], last_overload)

/-- One override module (one iteration of the `for mod in modules`
loop, lines 133-171): walk the nodes, then either group the imports
(line 169, via `ImportGroup`) or report an empty module. -/
def processModule (st : ScanState) (stem : String) (nodes : List OvrNode) :
    Except String ScanState := do
  let (st, i, _) ← nodes.foldlM (processNode stem) (st, [], "")
  if !i.isEmpty then
    let g ← ImportGroup.init i
    pure { st with def_import := st.def_import ++ [g] }
  else
    pure { st with diagnostics := st.diagnostics
             ++ ["Error: nothing to import from module: " ++ stem] }

/-- The whole override-directory scan. -/
def processModules (st : ScanState) (mods : List (String × List OvrNode)) :
    Except String ScanState :=
  mods.foldlM (fun st m => processModule st m.1 m.2) st

/-! ### `update.py` — enum collection and partition (lines 54-81, 210-256) -/

/-- The `EnumValue` class (lines 54-60). -/
structure EnumValue where
  name : String
  cls : String
deriving DecidableEq, Repr

/-- An `EnumClass` record after the partition step (lines 62-67 with
the direct attribute assignment of line 256). -/
structure EnumClass where
  name : String
  values : List EnumValue
deriving DecidableEq, Repr

/-- How the namespace loop classifies one entry's runtime type, for
the enum-relevant arms of the `if`/`elif` chain of lines 210-253. -/
inductive ScanEntry where
  /-- `type(obj) is sipenum`: a declared enumeration class. -/
  | enumType (name : String)
  /-- `isinstance(type(obj), sipenum)`: an enumeration value whose
  owner class is `type(obj).__name__`. -/
  | enumValue (name : String) (cls : String)
  /-- any other classification (constants, events, exceptions, ...). -/
  | other (name : String)
deriving DecidableEq, Repr

/-- The name of a scan entry. -/
def ScanEntry.entryName : ScanEntry → String
  | .enumType n => n
  | .enumValue n _ => n
  | .other n => n

/-- The name filters of line 211 and the `wxEVT` arm of line 214
(an event-code name is consumed by `def_evt` before the type tests
run). -/
def skipsEnumArms (name : String) : Bool :=
  pyStartsWith name "_" || pyStartsWith name "test"
    || endsWithL name.toList "_iterator".toList || pyStartsWith name "wxEVT"

/-- `def_val[cls].append(EnumValue(name, cls))` on the
`defaultdict(list)` modelled as an association list; insertion keeps
first-touch key order and per-key append order. -/
def consDV (cls : String) (v : EnumValue) : List (String × List EnumValue) →
    List (String × List EnumValue)
  | [] => [(cls, [v])]
  | (k, vs) :: rest =>
      if k = cls then (k, v :: vs) :: rest else (k, vs) :: consDV cls v rest

/-- The enum-relevant effect of the namespace loop (lines 210-223):
collect `def_enum` (declared enum-class names, in scan order) and
`def_val` (values bucketed by their owner's class name). -/
def scanEnums : List ScanEntry → List String × List (String × List EnumValue)
  | [] => ([], [])
  | e :: rest =>
      if skipsEnumArms e.entryName then scanEnums rest
      else
        match e with
        | .enumType n => let (de, dv) := scanEnums rest; (n :: de, dv)
        | .enumValue n c => let (de, dv) := scanEnums rest; (de, consDV c ⟨n, c⟩ dv)
        | .other _ => scanEnums rest

/-- The values an owner name collects, in scan order. -/
def collectedValues (es : List ScanEntry) (cls : String) : List EnumValue :=
  es.filterMap (fun e =>
    if skipsEnumArms e.entryName then none
    else match e with
      | .enumValue n c => if c = cls then some ⟨n, c⟩ else none
      | _ => none)

/-- The partition step (lines 255-256):
`for enum in def_enum: enum.values = def_val.pop(enum.name)`.
`dict.pop` with a missing key raises `KeyError`.  Returns the
partitioned classes and whatever is left in `def_val` afterwards. -/
def partitionEnums : List String → List (String × List EnumValue) →
    Except String (List EnumClass × List (String × List EnumValue))
  | [], dv => .ok ([], dv)
  | n :: rest, dv =>
      match lookupA n dv with
      | none => .error "KeyError"
      | some vs => do
          let (cs, dv') ← partitionEnums rest (eraseA n dv)
          pure (⟨n, vs⟩ :: cs, dv')

/-! ### `update.py` — bucket sorting (lines 176-264) -/

/-- The constants-bucket entry class of update.py (lines 39-52, spelled with one n in the source) as it occurs in the constants
bucket, where every entry is constructed with an explicit manual
priority tag `data` (1 for `int` literals, 2 for `str`/`bytes`
literals, 3 for the hand-overridden tuple-typed constants and the
toolkit-object constants, 4 for event binders). -/
structure Anot where
  name : String
  type : String
  comment : String
  data : Nat
deriving DecidableEq, Repr

/-- `obj.type[:7]`, the constants sort key of line 261 ("sort
constants by type, but don't cach the literal value in Literal
types"). -/
def type7 (a : Anot) : String := (a.type.toList.take 7).asString

/-- Python string `<=` (lexicographic by code point), as a structural
boolean comparator. -/
def charListLe : List Char → List Char → Bool
  | [], _ => true
  | _ :: _, [] => false
  | a :: as, b :: bs =>
      if a.toNat = b.toNat then charListLe as bs else decide (a.toNat < b.toNat)

/-- `a <= b` for Python strings. -/
def pyStrLe (a b : String) : Bool := charListLe a.toList b.toList

/-- `defs.sort(key=lambda obj: obj.name)` (lines 258-259), the common
by-name bucket sort: Python's stable sort, modelled by the (stable)
insertion sort over the key-lifted order. -/
def sort_by_name {α : Type} (nm : α → String) (l : List α) : List α :=
  l.insertionSort (fun a b => pyStrLe (nm a) (nm b) = true)

/-- The full ordering pipeline applied to the constants bucket: the
generic by-name sort of line 258, then `def_const.sort(key=lambda obj:
obj.type[:7])` (line 261), then `def_const.sort(key=lambda obj:
obj.data)` (line 262).  Each `list.sort` is stable, so the LAST key is
the primary one. -/
def sort_consts (l : List Anot) : List Anot :=
  ((sort_by_name Anot.name l).insertionSort
      (fun a b => pyStrLe (type7 a) (type7 b) = true)).insertionSort
    (fun a b => a.data ≤ b.data)

/-- An entry of the exceptions bucket `def_err`: a `Class` (line
83-89) or an `Assignment` alias (lines 91-97). -/
inductive ErrDef where
  | cls (name : String) (bases : List String)
  | assign (name : String) (value : String)
deriving DecidableEq, Repr

/-- The bound name of an exceptions-bucket entry. -/
def errName : ErrDef → String
  | .cls n _ => n
  | .assign n _ => n

/-- `type(obj) is not Class` (line 264) as a sort key (Python sorts
`False < True`). -/
def errKey : ErrDef → Nat
  | .cls _ _ => 0
  | .assign _ _ => 1

/-- The ordering pipeline of the exceptions bucket: by-name sort
(line 258) then the stable "assignments at end" sort of line 264. -/
def sort_errs (l : List ErrDef) : List ErrDef :=
  (sort_by_name errName l).insertionSort (fun a b => errKey a ≤ errKey b)

theorem charListLe_total : ∀ a b, charListLe a b = true ∨ charListLe b a = true
  | [], _ => Or.inl rfl
  | _ :: _, [] => Or.inr rfl
  | a :: as, b :: bs => by
      by_cases h : a.toNat = b.toNat
      · simpa [charListLe, h] using charListLe_total as bs
      · rcases Nat.lt_or_ge a.toNat b.toNat with hlt | hge
        · left; simp [charListLe, h, hlt]
        · right
          have hba : b.toNat ≠ a.toNat := fun e => h e.symm
          have : b.toNat < a.toNat := by omega
          simp [charListLe, hba, this]

theorem charListLe_trans :
    ∀ a b c, charListLe a b = true → charListLe b c = true → charListLe a c = true
  | [], _, _, _, _ => rfl
  | _ :: _, [], _, h, _ => by simp [charListLe] at h
  | _ :: _, _ :: _, [], _, h => by simp [charListLe] at h
  | a :: as, b :: bs, c :: cs, h1, h2 => by
      by_cases hab : a.toNat = b.toNat <;> by_cases hbc : b.toNat = c.toNat
      · simp only [charListLe, hab, hbc, if_pos, if_true, eq_self_iff_true] at h1 h2 ⊢
        exact charListLe_trans as bs cs h1 h2
      · simp only [charListLe, if_pos hab, if_neg hbc] at h1 h2
        have hac : a.toNat ≠ c.toNat := by
          simp only [decide_eq_true_eq] at h2; omega
        simp only [charListLe, if_neg hac, decide_eq_true_eq] at *
        omega
      · simp only [charListLe, if_neg hab, if_pos hbc] at h1 h2
        have hac : a.toNat ≠ c.toNat := by
          simp only [decide_eq_true_eq] at h1; omega
        simp only [charListLe, if_neg hac, decide_eq_true_eq] at *
        omega
      · simp only [charListLe, if_neg hab, if_neg hbc, decide_eq_true_eq] at h1 h2
        have hac : a.toNat ≠ c.toNat := by omega
        simp only [charListLe, if_neg hac, decide_eq_true_eq]
        omega

theorem pyStrLe_total (a b : String) : pyStrLe a b = true ∨ pyStrLe b a = true :=
  charListLe_total a.toList b.toList

theorem pyStrLe_trans {a b c : String} (h1 : pyStrLe a b = true) (h2 : pyStrLe b c = true) :
    pyStrLe a c = true :=
  charListLe_trans a.toList b.toList c.toList h1 h2

/-! ### `stub-outliner.py` — `make_function_stub` (lines 402-411) and
the module-global `name` (lines 19-32, 447-457) -/

/-- The grammar-section names bound at module top level by lines
19-31 of `stub-outliner.py`. -/
def grammarNamesBound : List String :=
  ["ident", "val", "arg", "args", "name", "tp_repr", "ret", "func"]

/-- The names removed again by line 32,
`del ident, val, arg, args, name, tp_repr, ret`. -/
def grammarNamesDeleted : List String :=
  ["ident", "val", "arg", "args", "name", "tp_repr", "ret"]

/-- The grammar-section globals still bound once the module body has
run: everything bound minus everything deleted. -/
def grammarNamesAfterImport : List String :=
  grammarNamesBound.filter (fun n => !grammarNamesDeleted.contains n)

/-- `make_function_stub` (lines 402-411), for the object named
`objName` whose documentation produced `sigs`.  The zero-signature
fallback prints the module-global `name` — not `obj.__name__` — so it
takes the current binding of that global (`none` when unbound, in
which case Python raises `NameError`).  Returns the emitted lines.  Returns the emitted lines. -/
def make_function_stub (nameGlobal : Option String) (objName : String)
    (sigs : List Signature) : Except String (List String) :=
  match sigs with
  | [] =>
      match nameGlobal with
      | none => .error ("NameError: name " ++ pyQuote ++ "name" ++ pyQuote ++ " is not defined")
      | some n => .ok ["def " ++ n ++ "(*args, **kwargs) -> Any: ..."]
  | [sig] => .ok [printSig sig ""]
  | sigs => .ok (sigs.flatMap (fun sig => ["@overload", printSig sig ""]))

/-! ## The claims -/

/-! ## Claims -/

/-- **C7**: for the pattern predicate itself, `match("winID", "win*")`
is true (the character after the stem is upper-case),
`match("winner", "win*")` is false (lower-case continuation), and
`match("win", "win*")` is accepted through the exact stem-equality
disjunct only: the wildcard disjunct on its own would raise
`IndexError` on that input, and none of the three actual calls raises. -/
theorem C7_match_branch_cases :
    matchPy "winID".toList "win*".toList = .ok true ∧
    matchPy "winner".toList "win*".toList = .ok false ∧
    matchPy "win".toList "win*".toList = .ok true ∧
    match_exact "win".toList "win*".toList = true ∧
    match_wildcard "win".toList "win*".toList = .error "IndexError" :=
  ⟨rfl, rfl, rfl, rfl, rfl⟩

/-- **C1** (code bug): the `key=len` sort of `patern_and_type` is a
no-op, because `len` of each `(pattern, type)` 2-tuple is 2; the
pattern `"x*"` does match the name `"xOffset"` when `match`'s own
parameter convention `match(string=name, patern=pattern)` is followed;
but `parse_args` calls `match(a, name)` with the pattern in the
`string` slot, under which `"x*"` does not match, so the argument name
`"xOffset"` (no default) is left uninferred instead of getting the
type `"int"` the table intends. -/
theorem C1_xOffset_left_uninferred :
    patern_and_type = raw_patern_and_type ∧
    matchPy "xOffset".toList "x*".toList = .ok true ∧
    matchPy "x*".toList "xOffset".toList = .ok false ∧
    (∀ wxNS : String → Option (String × String),
      parse_args wxNS ["xOffset"] false = .ok [Arg.mk "xOffset" none false]) :=
  ⟨by decide, rfl, rfl, fun _ => rfl⟩

/-- **C10**: the zero-signature fallback of `make_function_stub`
prints the module-global `name`, which line 32 deleted — so once the
module body has run that global is unbound and the call raises
`NameError`; and
when a caller has rebound the global (the CLI loop does), the emitted
stub carries that global's value, whatever the passed object's
`__name__` is. -/
theorem C10_fallback_prints_global_name :
    "name" ∉ grammarNamesAfterImport ∧
    (∀ objName : String,
      make_function_stub none objName [] =
        .error ("NameError: name " ++ pyQuote ++ "name" ++ pyQuote ++ " is not defined")) ∧
    (∀ n objName : String,
      make_function_stub (some n) objName [] =
        .ok ["def " ++ n ++ "(*args, **kwargs) -> Any: ..."]) :=
  ⟨by decide, fun _ => rfl, fun _ _ => rfl⟩

/-- **C8**: constructing an `ImportGroup` from an empty sequence is
rejected (the `assert`); from a non-empty sequence it raises
`ValueError` exactly when two entries name different source
sub-modules, and otherwise succeeds storing the shared module. -/
theorem C8_import_group_invariant :
    ImportGroup.init [] = .error "AssertionError: empty import" ∧
    (∀ (i0 : Import) (rest : List Import),
      ((∃ a ∈ i0 :: rest, ∃ b ∈ i0 :: rest, a.mod ≠ b.mod) ↔
        ImportGroup.init (i0 :: rest) =
          .error ("ValueError: Modules don" ++ pyQuote ++ "t match")) ∧
      ((∀ a ∈ i0 :: rest, a.mod = i0.mod) →
        ImportGroup.init (i0 :: rest) = .ok ⟨i0.mod, i0 :: rest⟩)) := by
  refine ⟨rfl, fun i0 rest => ?_⟩
  have hall : ((i0 :: rest).all (fun imp => imp.mod == i0.mod) = true) ↔
      (∀ a ∈ i0 :: rest, a.mod = i0.mod) := by
    simp [List.all_eq_true]
  constructor
  · constructor
    · rintro ⟨a, ha, b, hb, hne⟩
      have hno : ¬ ((i0 :: rest).all (fun imp => imp.mod == i0.mod) = true) := by
        intro h
        have h' := hall.mp h
        exact hne ((h' a ha).trans (h' b hb).symm)
      simp only [ImportGroup.init]
      rw [if_neg hno]
    · intro h
      by_contra hex
      push_neg at hex
      have hno : ¬ ((i0 :: rest).all (fun imp => imp.mod == i0.mod) = true) := by
        intro hal
        simp only [ImportGroup.init] at h
        rw [if_pos hal] at h
        exact Except.noConfusion h
      have : ∃ a ∈ i0 :: rest, a.mod ≠ i0.mod := by
        by_contra hc
        push_neg at hc
        exact hno (hall.mpr hc)
      obtain ⟨a, ha, hmod⟩ := this
      exact hmod (hex a ha i0 (List.mem_cons_self i0 rest))
  · intro h
    simp only [ImportGroup.init]
    rw [if_pos (hall.mpr h)]

/-- Witness for `C8_import_group_invariant`: both directions at
concrete inputs. -/
theorem C8_import_group_invariant_witness :
    ImportGroup.init [Import.mk "A" "wx._core", Import.mk "B" "wx._misc"] =
      .error ("ValueError: Modules don" ++ pyQuote ++ "t match") ∧
    ImportGroup.init [Import.mk "A" "wx._core", Import.mk "B" "wx._core"] =
      .ok ⟨"wx._core", [Import.mk "A" "wx._core", Import.mk "B" "wx._core"]⟩ := by
  constructor
  · exact ((C8_import_group_invariant.2 (Import.mk "A" "wx._core")
      [Import.mk "B" "wx._misc"]).1).mp
      ⟨Import.mk "A" "wx._core", by simp, Import.mk "B" "wx._misc", by simp, by decide⟩
  · exact (C8_import_group_invariant.2 (Import.mk "A" "wx._core")
      [Import.mk "B" "wx._core"]).2 (by intro a ha; fin_cases ha <;> rfl)

/-- **C9**: in the window-capability constructor override, a parsed
signature whose argument list is exactly `[self, parent]` makes the
code read `args[2]` unconditionally, raising `IndexError` instead of
producing a signature; the length guard only excludes lists with
fewer than two arguments; and the branch is reachable through the
whole docstring pipeline (`"Foo(parent) -> None"` on a window
subclass). -/
theorem C9_parent_only_ctor_index_error :
    (∀ (a0 a1 : Arg) (nm rt : String) (isTLW : Bool), a1.name = "parent" →
      init_overrides true isTLW false (Signature.mk nm [a0, a1] rt) = .error "IndexError") ∧
    (∀ (sig : Signature) (isW isTLW isE : Bool), sig.args.length < 2 →
      init_overrides isW isTLW isE sig = .ok sig) ∧
    process_init (fun _ => none) (fun _ => false) true false false false
      [Parsed.mk "Foo" ["parent"] "None"] = .error "IndexError" := by
  refine ⟨?_, ?_, rfl⟩
  · intro a0 a1 nm rt isTLW h
    simp [init_overrides, set_type, h]
  · intro sig isW isTLW isE h
    unfold init_overrides
    rw [if_pos h]

/-- Witness for `C9_parent_only_ctor_index_error` at concrete inputs. -/
theorem C9_parent_only_ctor_index_error_witness :
    init_overrides true false false
      (Signature.mk "__init__" [Arg.mk "self" none false, Arg.mk "parent" none false] "None") =
      .error "IndexError" ∧
    init_overrides true false false (Signature.mk "__init__" [Arg.mk "self" none false] "None") =
      .ok (Signature.mk "__init__" [Arg.mk "self" none false] "None") :=
  ⟨C9_parent_only_ctor_index_error.1 (Arg.mk "self" none false) (Arg.mk "parent" none false)
      "__init__" "None" false rfl,
   C9_parent_only_ctor_index_error.2.1
      (Signature.mk "__init__" [Arg.mk "self" none false] "None") true false false
      (by decide)⟩

/-- **C3**: for a window-capability class whose docstring yields the
parsed signature `Foo(parent, id=0) -> None`, the default-literal
heuristic first infers `"int"` for `id`, and the emitted constructor
signature types `parent` as the window type (`Optional[wx.Window]`
for top-level-window subclasses, `wx.Window` otherwise) and `id` as
`wx._WindowID`, overriding the heuristic. -/
theorem C3_window_ctor_param_types :
    ∀ (wxNS : String → Option (String × String)) (wxHas : String → Bool) (isTLW : Bool),
      wxHas "None" = false →
      parse_args wxNS ["parent", "id=0"] false =
        .ok [Arg.mk "parent" none false, Arg.mk "id" (some "int") true] ∧
      process_init wxNS wxHas true isTLW false false
          [Parsed.mk "Foo" ["parent", "id=0"] "None"] =
        .ok [Signature.mk "__init__"
          [Arg.mk "self" none false,
           Arg.mk "parent" (some (if isTLW then "Optional[wx.Window]" else "wx.Window")) false,
           Arg.mk "id" (some "wx._WindowID") true] "None"] ∧
      printSig (Signature.mk "__init__"
          [Arg.mk "self" none false,
           Arg.mk "parent" (some (if isTLW then "Optional[wx.Window]" else "wx.Window")) false,
           Arg.mk "id" (some "wx._WindowID") true] "None") "    " =
        (if isTLW then
          "    def __init__(self, parent: Optional[wx.Window], id: wx._WindowID = ...) -> None: ..."
         else
          "    def __init__(self, parent: wx.Window, id: wx._WindowID = ...) -> None: ...") := by
  intro wxNS wxHas isTLW h
  have h1 : mkSignature wxNS wxHas (Parsed.mk "Foo" ["parent", "id=0"] "None") true true false =
      .ok (Signature.mk "__init__"
        [Arg.mk "self" none false, Arg.mk "parent" none false, Arg.mk "id" (some "int") true]
        (modify_ret wxHas "None")) := rfl
  have hmr : modify_ret wxHas "None" = "None" := by
    simp [modify_ret, lookupA, h]
  rw [hmr] at h1
  cases isTLW
  · refine ⟨rfl, ?_, rfl⟩
    rw [process_init, exceptMap, h1]
    rfl
  · refine ⟨rfl, ?_, rfl⟩
    rw [process_init, exceptMap, h1]
    rfl

/-- Witness for `C3_window_ctor_param_types` at a concrete namespace. -/
theorem C3_window_ctor_param_types_witness :
    process_init (fun _ => none) (fun _ => false) true true false false
        [Parsed.mk "Foo" ["parent", "id=0"] "None"] =
      .ok [Signature.mk "__init__"
        [Arg.mk "self" none false,
         Arg.mk "parent" (some "Optional[wx.Window]") false,
         Arg.mk "id" (some "wx._WindowID") true] "None"] := by
  have h := (C3_window_ctor_param_types (fun _ => none) (fun _ => false) true rfl).2.1
  simpa using h

/-! ### Stability of the stacked `list.sort` calls

Python's `list.sort` is stable, and `update.py` stacks several sort
passes over the same bucket (lines 258-264), so the LAST key is the
primary one and earlier passes only order ties.  The two lemmas below
prove that for the insertion-sort model: sorting a `Pairwise S` list
stably by a total preorder `r` yields a list pairwise ordered by `r`,
with `S` still ordering the `r`-ties. -/

theorem orderedInsert_pairwise_stable {α : Type} (r : α → α → Prop) [DecidableRel r]
    (S : α → α → Prop)
    (htrans : ∀ a b c, r a b → r b c → r a c)
    (htot : ∀ a b, r a b ∨ r b a) (x : α) :
    ∀ L : List α, L.Pairwise r →
      L.Pairwise (fun a b => r a b ∧ (r b a → S a b)) →
      (∀ y ∈ L, S x y) →
      (L.orderedInsert r x).Pairwise (fun a b => r a b ∧ (r b a → S a b))
  | [], _, _, _ => by simp
  | y :: ys, hsort, hlex, hx => by
      by_cases hxy : r x y
      · rw [List.orderedInsert, if_pos hxy]
        refine List.pairwise_cons.mpr ⟨?_, hlex⟩
        intro z hz
        have hxz : r x z := by
          rcases hz with _ | hz
          · exact hxy
          · exact htrans _ _ _ hxy ((List.pairwise_cons.mp hsort).1 z (by assumption))
        exact ⟨hxz, fun _ => hx z hz⟩
      · rw [List.orderedInsert, if_neg hxy]
        refine List.pairwise_cons.mpr ⟨?_, ?_⟩
        · intro z hz
          rcases (List.mem_orderedInsert _).mp hz with rfl | hz
          · exact ⟨(htot z y).resolve_left hxy, fun h => absurd h hxy⟩
          · exact (List.pairwise_cons.mp hlex).1 z hz
        · exact orderedInsert_pairwise_stable r S htrans htot x ys
            (List.Pairwise.of_cons hsort) (List.Pairwise.of_cons hlex)
            (fun y hy => hx y (List.mem_cons_of_mem _ hy))

theorem insertionSort_pairwise_stable {α : Type} (r : α → α → Prop) [DecidableRel r]
    (S : α → α → Prop)
    (htrans : ∀ a b c, r a b → r b c → r a c)
    (htot : ∀ a b, r a b ∨ r b a) :
    ∀ l : List α, l.Pairwise S →
      (l.insertionSort r).Pairwise (fun a b => r a b ∧ (r b a → S a b))
  | [], _ => by simp
  | x :: l, h => by
      haveI : IsTotal α r := ⟨htot⟩
      haveI : IsTrans α r := ⟨htrans⟩
      rw [List.insertionSort]
      refine orderedInsert_pairwise_stable r S htrans htot x _ ?_ ?_ ?_
      · exact List.sorted_insertionSort _ l
      · exact insertionSort_pairwise_stable r S htrans htot l (List.Pairwise.of_cons h)
      · intro y hy
        exact (List.pairwise_cons.mp h).1 y ((List.perm_insertionSort _ l).mem_iff.mp hy)

/-- **C5** (amended): every output bucket comes out sorted by name
except two.  The exceptions bucket gets a second stable pass putting
assignment aliases after class definitions (that key primary, name
ordering ties).  The constants bucket's final order is decided first
by the explicit manual priority tag `data` — the LAST, hence primary,
stable sort key — then by the coarse 7-character type prefix, then by
name; in particular plain integer/string literal constants (tags 1
and 2) come out ahead of the hand-overridden tuple-typed and
toolkit-object constants (tag 3). -/
theorem C5_bucket_order_amended :
    (∀ {α : Type} (nm : α → String) (l : List α),
      (sort_by_name nm l).Perm l ∧
        (sort_by_name nm l).Pairwise (fun a b => pyStrLe (nm a) (nm b) = true)) ∧
    (∀ l : List Anot,
      (sort_consts l).Perm l ∧
        (sort_consts l).Pairwise (fun a b =>
          a.data ≤ b.data ∧ (b.data ≤ a.data →
            pyStrLe (type7 a) (type7 b) = true ∧ (pyStrLe (type7 b) (type7 a) = true →
              pyStrLe a.name b.name = true)))) ∧
    (∀ l : List ErrDef,
      (sort_errs l).Perm l ∧
        (sort_errs l).Pairwise (fun a b =>
          errKey a ≤ errKey b ∧ (errKey b ≤ errKey a →
            pyStrLe (errName a) (errName b) = true))) := by
  have hname : ∀ {α : Type} (nm : α → String) (l : List α),
      (sort_by_name nm l).Perm l ∧
        (sort_by_name nm l).Pairwise (fun a b => pyStrLe (nm a) (nm b) = true) := by
    intro α nm l
    haveI : IsTotal α (fun a b => pyStrLe (nm a) (nm b) = true) :=
      ⟨fun a b => pyStrLe_total (nm a) (nm b)⟩
    haveI : IsTrans α (fun a b => pyStrLe (nm a) (nm b) = true) :=
      ⟨fun _ _ _ hab hbc => pyStrLe_trans hab hbc⟩
    exact ⟨List.perm_insertionSort _ l, List.sorted_insertionSort _ l⟩
  refine ⟨hname, ?_, ?_⟩
  · intro l
    constructor
    · exact ((List.perm_insertionSort _ _).trans
        ((List.perm_insertionSort _ _).trans (List.perm_insertionSort _ l)))
    · exact insertionSort_pairwise_stable (fun a b : Anot => a.data ≤ b.data) _
        (fun _ _ _ hab hbc => le_trans hab hbc)
        (fun a b => le_total a.data b.data) _
        (insertionSort_pairwise_stable
          (fun a b : Anot => pyStrLe (type7 a) (type7 b) = true) _
          (fun _ _ _ hab hbc => pyStrLe_trans hab hbc)
          (fun a b => pyStrLe_total (type7 a) (type7 b)) _
          (hname Anot.name l).2)
  · intro l
    constructor
    · exact (List.perm_insertionSort _ _).trans (List.perm_insertionSort _ l)
    · exact insertionSort_pairwise_stable (fun a b : ErrDef => errKey a ≤ errKey b) _
        (fun _ _ _ hab hbc => le_trans hab hbc)
        (fun a b => le_total (errKey a) (errKey b)) _
        (hname errName l).2

/-- Counterexample to **C5** as stated: a toolkit-object constant
with priority tag 3 (`BLACK: Colour`) together with a plain integer
literal with tag 1 (`ALPHA: Literal[1]`).  Under the claimed order —
coarse type-category key first, priority tag subordinate — `BLACK`
would come first, since its type key `"Colour"` precedes
`"Literal"`; the actual pipeline emits the integer literal first,
because the priority-tag sort runs last and therefore dominates. -/
theorem C5_counterexample :
    sort_consts [Anot.mk "BLACK" "Colour" "" 3, Anot.mk "ALPHA" "Literal[1]" "" 1] =
      [Anot.mk "ALPHA" "Literal[1]" "" 1, Anot.mk "BLACK" "Colour" "" 3] ∧
    pyStrLe (type7 (Anot.mk "BLACK" "Colour" "" 3))
        (type7 (Anot.mk "ALPHA" "Literal[1]" "" 1)) = true ∧
    ¬ pyStrLe (type7 (Anot.mk "ALPHA" "Literal[1]" "" 1))
        (type7 (Anot.mk "BLACK" "Colour" "" 3)) = true := by
  refine ⟨rfl, rfl, ?_⟩
  decide

/-! ### Lemmas about the enum scan and partition -/

theorem lookupA_consDV (c k : String) (v : EnumValue) :
    ∀ dv, lookupA k (consDV c v dv) =
      if c = k then some (v :: (lookupA k dv).getD []) else lookupA k dv
  | [] => by
      by_cases h : c = k <;> simp [consDV, lookupA, h]
  | (k', vs) :: rest => by
      by_cases hk' : k' = c
      · subst hk'
        by_cases h : k' = k <;> simp [consDV, lookupA, h]
      · by_cases h : k' = k
        · subst h
          have : c ≠ k' := fun e => hk' e.symm
          simp [consDV, lookupA, hk', this]
        · simp [consDV, lookupA, hk', h, lookupA_consDV c k v rest]

theorem collectedValues_cons (e : ScanEntry) (rest : List ScanEntry) (k : String) :
    collectedValues (e :: rest) k =
      if skipsEnumArms e.entryName = true then collectedValues rest k
      else match e with
        | .enumValue n c =>
            if c = k then EnumValue.mk n c :: collectedValues rest k
            else collectedValues rest k
        | _ => collectedValues rest k := by
  cases e with
  | enumType n =>
      by_cases h : skipsEnumArms n = true <;>
        simp [collectedValues, List.filterMap_cons, ScanEntry.entryName, h]
  | enumValue n c =>
      by_cases h : skipsEnumArms n = true
      · simp [collectedValues, List.filterMap_cons, ScanEntry.entryName, h]
      · by_cases hc : c = k <;>
          simp [collectedValues, List.filterMap_cons, ScanEntry.entryName, h, hc]
  | other n =>
      by_cases h : skipsEnumArms n = true <;>
        simp [collectedValues, List.filterMap_cons, ScanEntry.entryName, h]

/-- The `def_val` dict the scan builds holds, at key `k`, exactly the
values collected for the owner name `k` (and no key with an empty
list). -/
theorem scanEnums_lookup (k : String) :
    ∀ es : List ScanEntry, lookupA k (scanEnums es).2 =
      if collectedValues es k = [] then none else some (collectedValues es k)
  | [] => rfl
  | e :: rest => by
      have ih := scanEnums_lookup k rest
      cases e with
      | enumType n =>
          by_cases h : skipsEnumArms n = true
          · rw [collectedValues_cons]
            simp only [ScanEntry.entryName, h, if_pos]
            have h2 : scanEnums (ScanEntry.enumType n :: rest) = scanEnums rest := by
              simp only [scanEnums, ScanEntry.entryName, h, if_pos]
            rw [h2]; exact ih
          · rw [collectedValues_cons]
            simp only [ScanEntry.entryName, h, if_neg, Bool.false_eq_true, if_false]
            have h2 : (scanEnums (ScanEntry.enumType n :: rest)).2 = (scanEnums rest).2 := by
              simp only [scanEnums, ScanEntry.entryName]
              rw [if_neg (by simp [h])]
            rw [h2]; exact ih
      | other n =>
          by_cases h : skipsEnumArms n = true
          · rw [collectedValues_cons]
            simp only [ScanEntry.entryName, h, if_pos]
            have h2 : scanEnums (ScanEntry.other n :: rest) = scanEnums rest := by
              simp only [scanEnums, ScanEntry.entryName, h, if_pos]
            rw [h2]; exact ih
          · rw [collectedValues_cons]
            simp only [ScanEntry.entryName, h, if_neg, Bool.false_eq_true, if_false]
            have h2 : scanEnums (ScanEntry.other n :: rest) = scanEnums rest := by
              simp only [scanEnums, ScanEntry.entryName]
              rw [if_neg (by simp [h])]
            rw [h2]; exact ih
      | enumValue n c =>
          by_cases h : skipsEnumArms n = true
          · rw [collectedValues_cons]
            simp only [ScanEntry.entryName, h, if_pos]
            have h2 : scanEnums (ScanEntry.enumValue n c :: rest) = scanEnums rest := by
              simp only [scanEnums, ScanEntry.entryName, h, if_pos]
            rw [h2]; exact ih
          · rw [collectedValues_cons]
            simp only [ScanEntry.entryName, h, if_neg, Bool.false_eq_true, if_false]
            have h2 : (scanEnums (ScanEntry.enumValue n c :: rest)).2 =
                consDV c (EnumValue.mk n c) (scanEnums rest).2 := by
              simp only [scanEnums, ScanEntry.entryName]
              rw [if_neg (by simp [h])]
            rw [h2, lookupA_consDV]
            by_cases hc : c = k
            · rw [if_pos hc, if_pos hc, ih]
              by_cases he : collectedValues rest k = []
              · simp [he]
              · simp [he]
            · rw [if_neg hc, if_neg hc]
              exact ih

theorem collectedValues_cls (k : String) :
    ∀ es, ∀ v ∈ collectedValues es k, v.cls = k
  | [], v, hv => by simp [collectedValues] at hv
  | e :: rest, v, hv => by
      rw [collectedValues_cons] at hv
      cases e with
      | enumType n =>
          simp only [ScanEntry.entryName] at hv
          by_cases h : skipsEnumArms n = true
          · rw [if_pos h] at hv
            exact collectedValues_cls k rest v hv
          · rw [if_neg (by simpa [ScanEntry.entryName] using h)] at hv
            exact collectedValues_cls k rest v hv
      | other n =>
          simp only [ScanEntry.entryName] at hv
          by_cases h : skipsEnumArms n = true
          · rw [if_pos h] at hv
            exact collectedValues_cls k rest v hv
          · rw [if_neg (by simpa [ScanEntry.entryName] using h)] at hv
            exact collectedValues_cls k rest v hv
      | enumValue n c =>
          simp only [ScanEntry.entryName] at hv
          by_cases h : skipsEnumArms n = true
          · rw [if_pos h] at hv
            exact collectedValues_cls k rest v hv
          · rw [if_neg (by simpa [ScanEntry.entryName] using h)] at hv
            by_cases hc : c = k
            · rw [if_pos hc] at hv
              rcases List.mem_cons.mp hv with rfl | hv2
              · exact hc
              · exact collectedValues_cls k rest v hv2
            · rw [if_neg hc] at hv
              exact collectedValues_cls k rest v hv

/-- A successful partition read each emitted class's values straight
out of the original `def_val` dict. -/
theorem partitionEnums_ok_lookup :
    ∀ (de : List String) (dv : List (String × List EnumValue)) cs dvr,
      partitionEnums de dv = .ok (cs, dvr) →
      ∀ c ∈ cs, lookupA c.name dv = some c.values
  | [], dv, cs, dvr, h => by
      simp only [partitionEnums, Except.ok.injEq] at h
      cases h
      intro c hc
      simp at hc
  | n :: rest, dv, cs, dvr, h => by
      rw [partitionEnums] at h
      cases hlk : lookupA n dv with
      | none => rw [hlk] at h; exact absurd h (by simp)
      | some vs =>
          rw [hlk] at h
          cases hrec : partitionEnums rest (eraseA n dv) with
          | error e => rw [hrec] at h; exact absurd h (by simp)
          | ok p =>
              obtain ⟨cs2, dvr2⟩ := p
              rw [hrec] at h
              simp only [Except.bind, bind, pure, Except.pure, Except.ok.injEq,
                Prod.mk.injEq] at h
              obtain ⟨hcs, hdv⟩ := h
              intro c hc
              rw [← hcs] at hc
              rcases List.mem_cons.mp hc with rfl | hc2
              · exact hlk
              · have hlk2 := partitionEnums_ok_lookup rest (eraseA n dv) cs2 dvr2 hrec c hc2
                by_cases hne : c.name = n
                · rw [hne, lookupA_eraseA_self] at hlk2
                  exact absurd hlk2 (by simp)
                · rwa [lookupA_eraseA_ne (Ne.symm hne)] at hlk2

/-- A successful partition emits exactly the declared enum names, in
order. -/
theorem partitionEnums_ok_names :
    ∀ (de : List String) (dv : List (String × List EnumValue)) cs dvr,
      partitionEnums de dv = .ok (cs, dvr) → cs.map EnumClass.name = de
  | [], dv, cs, dvr, h => by
      simp only [partitionEnums, Except.ok.injEq] at h
      cases h
      rfl
  | n :: rest, dv, cs, dvr, h => by
      rw [partitionEnums] at h
      cases hlk : lookupA n dv with
      | none => rw [hlk] at h; exact absurd h (by simp)
      | some vs =>
          rw [hlk] at h
          cases hrec : partitionEnums rest (eraseA n dv) with
          | error e => rw [hrec] at h; exact absurd h (by simp)
          | ok p =>
              obtain ⟨cs2, dvr2⟩ := p
              rw [hrec] at h
              simp only [Except.bind, bind, pure, Except.pure, Except.ok.injEq,
                Prod.mk.injEq] at h
              rw [← h.1]
              simp [partitionEnums_ok_names rest (eraseA n dv) cs2 dvr2 hrec]

/-- Counterexample to **C2** as stated: the namespace declares enum
class `A` and collects values `v` (owner `A`) and `w` (owner the
never-declared class `B`).  The partition finishes with `.ok` —
nothing is raised for `w` — and `w` appears in no emitted `EnumClass`:
it stays behind in the residual `def_val`, silently dropped from the
output. -/
theorem C2_enum_partition_counterexample :
    partitionEnums
        (scanEnums [ScanEntry.enumType "A", ScanEntry.enumValue "v" "A",
          ScanEntry.enumValue "w" "B"]).1
        (scanEnums [ScanEntry.enumType "A", ScanEntry.enumValue "v" "A",
          ScanEntry.enumValue "w" "B"]).2 =
      .ok ([EnumClass.mk "A" [EnumValue.mk "v" "A"]], [("B", [EnumValue.mk "w" "B"])]) ∧
    (∀ c ∈ [EnumClass.mk "A" [EnumValue.mk "v" "A"]], EnumValue.mk "w" "B" ∉ c.values) :=
  ⟨rfl, by decide⟩

/-- **C2** (amended): when the partition step succeeds, every
declared `EnumClass` receives exactly the values that declare it as
owner; an `EnumValue` whose declared owner matches no declared
`EnumClass` is silently dropped — it ends up in no emitted class and
no error is raised for it (`KeyError` is only possible for a declared
class that collected no values, the opposite direction, so a
successful run also certifies every declared class collected at least
one value). -/
theorem C2_enum_partition_amended :
    ∀ (es : List ScanEntry) (cs : List EnumClass) (dvr : List (String × List EnumValue)),
      partitionEnums (scanEnums es).1 (scanEnums es).2 = .ok (cs, dvr) →
      (∀ c ∈ cs, c.values = collectedValues es c.name) ∧
      (∀ n cls : String, cls ∉ (scanEnums es).1 →
        ∀ c ∈ cs, EnumValue.mk n cls ∉ c.values) ∧
      (∀ nm ∈ (scanEnums es).1, collectedValues es nm ≠ []) := by
  intro es cs dvr h
  have hvals : ∀ c ∈ cs,
      c.values = collectedValues es c.name ∧ collectedValues es c.name ≠ [] := by
    intro c hc
    have hlk := partitionEnums_ok_lookup _ _ _ _ h c hc
    rw [scanEnums_lookup] at hlk
    by_cases he : collectedValues es c.name = []
    · rw [if_pos he] at hlk
      exact absurd hlk (by simp)
    · rw [if_neg he] at hlk
      exact ⟨(Option.some.inj hlk).symm, he⟩
  have hnames := partitionEnums_ok_names _ _ _ _ h
  refine ⟨fun c hc => (hvals c hc).1, ?_, ?_⟩
  · intro n cls hcls c hc hmem
    rw [(hvals c hc).1] at hmem
    have hccls : cls = c.name := collectedValues_cls c.name es _ hmem
    have hcn : c.name ∈ (scanEnums es).1 := by
      rw [← hnames]
      exact List.mem_map_of_mem _ hc
    exact hcls (hccls ▸ hcn)
  · intro nm hnm
    rw [← hnames] at hnm
    obtain ⟨c, hc, hcn⟩ := List.mem_map.mp hnm
    rw [← hcn]
    exact (hvals c hc).2

/-- Witness for `C2_enum_partition_amended`: a concrete successful
partition, whose emitted class `A` holds exactly the collected
`A`-owned values. -/
theorem C2_enum_partition_amended_witness :
    [EnumValue.mk "v" "A"] =
      collectedValues [ScanEntry.enumType "A", ScanEntry.enumValue "v" "A"] "A" :=
  (C2_enum_partition_amended [ScanEntry.enumType "A", ScanEntry.enumValue "v" "A"]
      [EnumClass.mk "A" [EnumValue.mk "v" "A"]] [] rfl).1
    (EnumClass.mk "A" [EnumValue.mk "v" "A"]) (by simp)

/-- Counterexample to **C6** as stated: the class `Foo` is declared
in both override files `_m1.pyi` and `_m2.pyi` (and exists once in
the namespace).  The scan completes with `.ok` — no hard failure
aborts the run — leaving the printed diagnostic
`"Error: duplicate class definition - Foo"` behind and still
emitting both import groups. -/
theorem C6_duplicate_class_counterexample :
    processModules (ScanState.mk ["Foo"] [] [] [])
        [("_m1", [OvrNode.classDef "Foo" []]), ("_m2", [OvrNode.classDef "Foo" []])] =
      .ok (ScanState.mk [] ["Foo"]
        [ImportGroup.mk "wx._m1" [Import.mk "Foo" "wx._m1"],
         ImportGroup.mk "wx._m2" [Import.mk "Foo" "wx._m2"]]
        ["Error: duplicate class definition - Foo"]) := rfl

/-- **C6** (amended): a class name declared in a second override stub
file — i.e. scanned when it is no longer in `mod_dict` but already in
`classes_stubed` — is reported as the printed diagnostic
`"Error: duplicate class definition - <name>"` and the scan continues
normally (the node processor returns successfully, leaving
`mod_dict` and `classes_stubed` untouched and still collecting
the Import record); it is not a hard failure that aborts the run. -/
theorem C6_duplicate_class_is_diagnostic :
    ∀ (stem name : String) (body : List OvrFuncSig) (st : ScanState)
      (i : List Import) (lo : String),
      underscored name = false →
      st.mod_dict.contains name = false →
      st.classes_stubed.contains name = true →
      processNode stem (st, i, lo) (OvrNode.classDef name body) =
        .ok ({ st with diagnostics := st.diagnostics ++ (check_has_anotations stem name body
                 ++ ["Error: duplicate class definition - " ++ name]) },
             i ++ [Import.mk name ("wx." ++ stem)], lo) := by
  intro stem name body st i lo h1 h2 h3
  have h2m : ¬ name ∈ st.mod_dict := by simpa using h2
  have h3m : name ∈ st.classes_stubed := by simpa using h3
  simp [processNode, h1, h2m, h3m, pure, Except.pure]

/-- Witness for `C6_duplicate_class_is_diagnostic` at the concrete
post-first-file state. -/
theorem C6_duplicate_class_is_diagnostic_witness :
    processNode "_m2" (ScanState.mk [] ["Foo"] [] [], [], "") (OvrNode.classDef "Foo" []) =
      .ok (ScanState.mk [] ["Foo"] [] ["Error: duplicate class definition - Foo"],
           [Import.mk "Foo" "wx._m2"], "") := by
  have h := C6_duplicate_class_is_diagnostic "_m2" "Foo" [] (ScanState.mk [] ["Foo"] [] [])
    [] "" rfl rfl rfl
  simpa using h

/-! ### Lemmas about the method loop's `setters` dict -/

theorem lookupA_insertA_self {β : Type} (k : String) (v : β) (l : List (String × β)) :
    lookupA k (insertA k v l) = some v := by
  simp [insertA, lookupA]

/-- Does processing this method possibly write or pop the `setters`
key `k`?  (Only a single-signature method touches the dict at all.) -/
def touchesKey (k n : String) (sigs : List Signature) : Bool :=
  match sigs with
  | [sig] => (pyStartsWith sig.name "Get" && (replaceGetSetS sig.name == k)) || (n == k)
  | _ => false

theorem method_pass_ok_cons {n : String} {sigs : List Signature}
    {rest : List (String × List Signature)} {setters : List (String × String)}
    {outs : List MethodOut}
    (h : method_pass ((n, sigs) :: rest) setters = .ok outs) :
    ∃ o s' outs', methodStep n sigs setters = .ok (o, s') ∧
      method_pass rest s' = .ok outs' ∧ outs = o :: outs' := by
  rw [method_pass] at h
  cases hms : methodStep n sigs setters with
  | error e =>
      rw [hms] at h
      simp only [bind, Except.bind] at h
      exact Except.noConfusion h
  | ok p =>
      obtain ⟨o, s'⟩ := p
      rw [hms] at h
      simp only [bind, Except.bind] at h
      cases hmp : method_pass rest s' with
      | error e =>
          rw [hmp] at h
          simp only at h
          exact Except.noConfusion h
      | ok outs' =>
          rw [hmp] at h
          simp only [pure, Except.pure, Except.ok.injEq] at h
          exact ⟨o, s', outs', rfl, hmp, h.symm⟩

theorem method_pass_ok_length :
    ∀ (entries : List (String × List Signature)) (setters : List (String × String))
      (outs : List MethodOut), method_pass entries setters = .ok outs →
      outs.length = entries.length
  | [], setters, outs, h => by
      simp only [method_pass, Except.ok.injEq] at h
      rw [← h]
      rfl
  | (n, sigs) :: rest, setters, outs, h => by
      obtain ⟨o, s', outs', _, hmp, rfl⟩ := method_pass_ok_cons h
      simp [method_pass_ok_length rest s' outs' hmp]

/-- A method that does not touch the key `k` leaves `setters`'s
binding at `k` unchanged. -/
theorem methodStep_preserves {k n : String} {sigs : List Signature}
    {setters s' : List (String × String)} {o : MethodOut}
    (ht : touchesKey k n sigs = false)
    (h : methodStep n sigs setters = .ok (o, s')) :
    lookupA k s' = lookupA k setters := by
  cases sigs with
  | nil =>
      simp only [methodStep, Except.ok.injEq, Prod.mk.injEq] at h
      rw [← h.2]
  | cons sig rest =>
      cases rest with
      | nil =>
          simp only [touchesKey, Bool.or_eq_false_iff, Bool.and_eq_false_iff] at ht
          by_cases hg : pyStartsWith sig.name "Get" = true
          · simp only [methodStep, hg, if_pos, Except.ok.injEq, Prod.mk.injEq] at h
            have hkey : replaceGetSetS sig.name ≠ k := by
              rcases ht.1 with hgf | hbeq
              · rw [hg] at hgf; exact absurd hgf (by simp)
              · simpa using hbeq
            rw [← h.2, lookupA_insertA_ne hkey]
          · by_cases hc : ((lookupA sig.name setters).isSome && sig.args.length == 2
                && sndArgUninferred sig) = true
            · cases hn : lookupA n setters with
              | none => simp [methodStep, hg, hc, hn] at h
              | some t =>
                  simp only [methodStep, hg, Bool.false_eq_true, if_false, hc, if_pos, hn,
                    Except.ok.injEq, Prod.mk.injEq] at h
                  have hnk : n ≠ k := by simpa using ht.2
                  rw [← h.2, lookupA_eraseA_ne hnk]
            · simp only [methodStep, hg, Bool.false_eq_true, if_false, hc,
                Except.ok.injEq, Prod.mk.injEq] at h
              rw [← h.2]
      | cons sig2 rest2 =>
          simp only [methodStep, Except.ok.injEq, Prod.mk.injEq] at h
          rw [← h.2]

/-- Walking any touch-free stretch of methods and then the setter
entry: the last emitted item is the setter's, mutated exactly when the
propagation guard holds. -/
theorem method_pass_last_setter {k t : String} {s : Signature}
    (hname : s.name = k) (hng : pyStartsWith s.name "Get" = false) :
    ∀ (mid : List (String × List Signature)) (setters : List (String × String))
      (outs : List MethodOut),
      (∀ e ∈ mid, touchesKey k e.1 e.2 = false) →
      lookupA k setters = some t →
      method_pass (mid ++ [(s.name, [s])]) setters = .ok outs →
      ((s.args.length = 2 ∧ sndArgUninferred s = true) →
        outs.getLast? = some (.single { s with args := set_type s.args 1 t })) ∧
      (¬(s.args.length = 2 ∧ sndArgUninferred s = true) →
        outs.getLast? = some (.single s))
  | [], setters, outs, _, hset, h => by
      subst hname
      rw [List.nil_append] at h
      obtain ⟨o, s', outs', hms, hmp, rfl⟩ := method_pass_ok_cons h
      simp only [method_pass, Except.ok.injEq] at hmp
      subst hmp
      constructor
      · rintro ⟨hlen, hun⟩
        simp only [methodStep, hng, Bool.false_eq_true, if_false, hset] at hms
        rw [if_pos (by simp [hlen, hun] :
          ((some t : Option String).isSome && s.args.length == 2
            && sndArgUninferred s) = true)] at hms
        simp only [Except.ok.injEq, Prod.mk.injEq] at hms
        rw [← hms.1]
        rfl
      · intro hnot
        simp only [methodStep, hng, Bool.false_eq_true, if_false, hset] at hms
        have hcond : ¬ (((some t : Option String).isSome && s.args.length == 2
            && sndArgUninferred s) = true) := by
          rcases not_and_or.mp hnot with hl | hu
          · have hb : (s.args.length == 2) = false := by simpa using hl
            simp [hb]
          · have hb : sndArgUninferred s = false := by simpa using hu
            simp [hb]
        rw [if_neg hcond] at hms
        simp only [Except.ok.injEq, Prod.mk.injEq] at hms
        rw [← hms.1]
        rfl
  | (n, sigs) :: mid, setters, outs, htouch, hset, h => by
      rw [List.cons_append] at h
      obtain ⟨o, s', outs', hms, hmp, rfl⟩ := method_pass_ok_cons h
      have hpres : lookupA k s' = lookupA k setters :=
        methodStep_preserves (htouch (n, sigs) (List.mem_cons_self _ _)) hms
      have ih := method_pass_last_setter hname hng mid s' outs'
        (fun e he => htouch e (List.mem_cons_of_mem _ he)) (hpres.trans hset) hmp
      have hne : outs' ≠ [] := by
        intro hnil
        have hl := method_pass_ok_length _ _ _ hmp
        rw [hnil] at hl
        simp at hl
      obtain ⟨o2, outs2, rfl⟩ := List.exists_cons_of_ne_nil hne
      exact ⟨fun hc => by rw [List.getLast?_cons_cons]; exact ih.1 hc,
             fun hc => by rw [List.getLast?_cons_cons]; exact ih.2 hc⟩

theorem replaceGetSet_Get (rest : List Char) :
    replaceGetSet ('G' :: 'e' :: 't' :: rest) = 'S' :: 'e' :: 't' :: replaceGetSet rest := rfl

/-- **C4**: in the sorted-order method loop, a method `Get…` with
exactly one parsed signature records its (renamed) return type in
`setters` under the `Get`→`Set`-replaced key; a later method whose
name equals that key and whose single parsed signature has exactly one
non-`self` argument with an uninferred type (`None`, or the `"Any"`
placeholder) gets the recorded type assigned to that argument — and
only under exactly those conditions, the signature otherwise being
emitted unchanged. -/
theorem C4_getter_setter_propagation :
    ∀ (gX : List Char) (g s : Signature) (mid : List (String × List Signature))
      (outs : List MethodOut) (t : String),
      g.name = ('G' :: 'e' :: 't' :: gX).asString →
      s.name = replaceGetSetS g.name →
      t = getterRecordedType g.retanot →
      (∀ e ∈ mid, touchesKey s.name e.1 e.2 = false) →
      methodStep g.name [g] [] = .ok (.single g, insertA s.name t []) ∧
      (method_pass ((g.name, [g]) :: (mid ++ [(s.name, [s])])) [] = .ok outs →
        (s.args.length = 2 ∧ sndArgUninferred s = true →
          outs.getLast? = some (.single { s with args := set_type s.args 1 t })) ∧
        (¬(s.args.length = 2 ∧ sndArgUninferred s = true) →
          outs.getLast? = some (.single s))) := by
  intro gX g s mid outs t hg hs ht htouch
  have hgl : g.name.toList = 'G' :: 'e' :: 't' :: gX := by
    rw [hg, List.toList_asString]
  have hget : pyStartsWith g.name "Get" = true := by
    unfold pyStartsWith startsWithL
    rw [show g.name.toList = 'G' :: 'e' :: 't' :: gX from hgl]
    simp [List.isPrefixOf]
  have hsl : s.name.toList = 'S' :: 'e' :: 't' :: replaceGetSet gX := by
    rw [hs, replaceGetSetS, List.toList_asString, hgl, replaceGetSet_Get]
  have hsng : pyStartsWith s.name "Get" = false := by
    unfold pyStartsWith startsWithL
    rw [show s.name.toList = 'S' :: 'e' :: 't' :: replaceGetSet gX from hsl]
    simp [List.isPrefixOf]
  have hstep : methodStep g.name [g] [] = .ok (.single g, insertA s.name t []) := by
    rw [hs, ht]
    simp [methodStep, hget]
  refine ⟨hstep, ?_⟩
  intro hpass
  obtain ⟨o, s1, outs', hms, hmp, rfl⟩ := method_pass_ok_cons hpass
  rw [hstep] at hms
  have hpair := Except.ok.inj hms
  have hs1 : insertA s.name t [] = s1 := congrArg Prod.snd hpair
  subst hs1
  have hres := method_pass_last_setter rfl hsng mid _ outs' htouch
    (lookupA_insertA_self s.name t []) hmp
  have hne : outs' ≠ [] := by
    intro hnil
    have hl := method_pass_ok_length _ _ _ hmp
    rw [hnil] at hl
    simp at hl
  obtain ⟨o2, outs2, rfl⟩ := List.exists_cons_of_ne_nil hne
  exact ⟨fun hc => by rw [List.getLast?_cons_cons]; exact hres.1 hc,
         fun hc => by rw [List.getLast?_cons_cons]; exact hres.2 hc⟩

/-- Witness for `C4_getter_setter_propagation`: the spec's
`GetWidth() -> int` / `SetWidth(self, value)` pair. -/
theorem C4_getter_setter_propagation_witness :
    ([MethodOut.single (Signature.mk "GetWidth" [Arg.mk "self" none false] "int"),
      MethodOut.single (Signature.mk "SetWidth"
        [Arg.mk "self" none false, Arg.mk "value" (some "int") false] "None")] :
      List MethodOut).getLast? =
      some (MethodOut.single (Signature.mk "SetWidth"
        [Arg.mk "self" none false, Arg.mk "value" (some "int") false] "None")) := by
  have h := (C4_getter_setter_propagation ('W' :: 'i' :: 'd' :: 't' :: ['h'])
      (Signature.mk "GetWidth" [Arg.mk "self" none false] "int")
      (Signature.mk "SetWidth" [Arg.mk "self" none false, Arg.mk "value" none false] "None")
      []
      [MethodOut.single (Signature.mk "GetWidth" [Arg.mk "self" none false] "int"),
       MethodOut.single (Signature.mk "SetWidth"
         [Arg.mk "self" none false, Arg.mk "value" (some "int") false] "None")]
      "int" (by decide) (by decide) rfl (by simp)).2 rfl
  have h3 := h.1 ⟨rfl, rfl⟩
  rw [show (Signature.mk "SetWidth"
      [Arg.mk "self" none false, Arg.mk "value" (some "int") false] "None") =
      { Signature.mk "SetWidth" [Arg.mk "self" none false, Arg.mk "value" none false] "None" with
        args := set_type [Arg.mk "self" none false, Arg.mk "value" none false] 1 "int" } from rfl]
  exact h3
